import Mathlib

/-!
# Verification of the Power Pages local server rendering and mocking pipeline

A shallow embedding, over `List Char` strings and an abstract file-system
record, of the Liquid preprocessing engine (`LiquidEngine.preprocessIncludes`,
`processInclude`, `loadSnippetContent`, `isJavaScriptContent`, `render`), the
snippet/template/page handlers, and the mock-rule store and matcher of the
repository, together with theorems settling the specification claims.

JavaScript strings are modelled as Lean strings (`List Char` underneath);
JavaScript regular-expression tests and global match counts are implemented
by an explicit backtracking matcher over a small token language that covers
exactly the character classes used by the source patterns.
-/

namespace PPLS

/-- The left-brace character, written by code so that no brace appears in a
string literal. -/
def lbrace : Char := Char.ofNat 123

/-- The right-brace character. -/
def rbrace : Char := Char.ofNat 125

/-- The single-quote character. -/
def squote : Char := Char.ofNat 39

/-- The double-quote character. -/
def dquote : Char := Char.ofNat 34

/-- JavaScript `\s` on the ASCII fragment: space, tab, line feed, carriage
return, vertical tab, form feed. -/
def isJsSpace (c : Char) : Bool :=
  c = ' ' || c = Char.ofNat 9 || c = Char.ofNat 10 || c = Char.ofNat 13 ||
  c = Char.ofNat 11 || c = Char.ofNat 12

/-- JavaScript `\w`: ASCII letters, digits and underscore. -/
def isWordChar (c : Char) : Bool :=
  (Char.ofNat 97 ≤ c && c ≤ Char.ofNat 122) ||
  (Char.ofNat 65 ≤ c && c ≤ Char.ofNat 90) ||
  (Char.ofNat 48 ≤ c && c ≤ Char.ofNat 57) || c = '_'

/-- ASCII letter test, for the `[a-zA-Z]` character class. -/
def isAsciiLetter (c : Char) : Bool :=
  (Char.ofNat 97 ≤ c && c ≤ Char.ofNat 122) ||
  (Char.ofNat 65 ≤ c && c ≤ Char.ofNat 90)

/-- `String.prototype.toLowerCase` on the ASCII fragment, per character
(codepoints 65–90 shift to 97–122). -/
def jsCharToLower (c : Char) : Char :=
  if 65 ≤ c.toNat ∧ c.toNat ≤ 90 then Char.ofNat (c.toNat + 32) else c

/-- `String.prototype.toUpperCase` on the ASCII fragment, per character. -/
def jsCharToUpper (c : Char) : Char :=
  if 97 ≤ c.toNat ∧ c.toNat ≤ 122 then Char.ofNat (c.toNat - 32) else c

/-- `toLowerCase` on a whole string. -/
def jsToLower (s : String) : String := String.mk (s.data.map jsCharToLower)

/-- `toUpperCase` on a whole string. -/
def jsToUpper (s : String) : String := String.mk (s.data.map jsCharToUpper)

/-- `String.prototype.trim`: strip JavaScript whitespace from both ends. -/
def jsTrim (s : String) : String :=
  String.mk (((s.data.dropWhile isJsSpace).reverse.dropWhile isJsSpace).reverse)

/-- `String.prototype.endsWith`. -/
def jsEndsWith (s pat : String) : Bool := List.isSuffixOf pat.data s.data

/-- Substring occurrence on character lists (JavaScript `String.includes`). -/
def listContainsSub (pat : List Char) : List Char → Bool
  | [] => pat.isEmpty
  | c :: cs => List.isPrefixOf pat (c :: cs) || listContainsSub pat cs

/-- `String.prototype.includes`. -/
def jsIncludes (s pat : String) : Bool := listContainsSub pat.data s.data

/-- `node path.join` restricted to joining two relative segments. -/
def pathJoin (a b : String) : String := a ++ "/" ++ b

/-- Replace, in `l`, the first occurrence of the (non-empty) pattern `pat`
by `repl`: the semantics of JavaScript `String.replace` with a string
pattern, with the replacement inserted literally. -/
def replaceFirstL (l pat repl : List Char) : List Char :=
  match l with
  | [] => []
  | c :: cs =>
    if List.isPrefixOf pat (c :: cs) then repl ++ (c :: cs).drop pat.length
    else c :: replaceFirstL cs pat repl

/-- `String.replace` with a string pattern: first occurrence only. -/
def jsReplaceFirst (s pat repl : String) : String :=
  String.mk (replaceFirstL s.data pat.data repl.data)

/-- Both `LiquidEngine.loadSnippetContent` / `processInclude` and
`SnippetHandler.getSnippet` derive a directory name from a logical name by
`name.toLowerCase().replace(/\s+/g, '-')`: lowercase the name and collapse
every maximal whitespace run into a single hyphen.  The collapse is
implemented by a single scan carrying a flag recording whether the previous
character was whitespace. -/
def wsCollapse : List Char → Bool → List Char
  | [], _ => []
  | c :: cs, prevWs =>
    if isJsSpace c then
      if prevWs then wsCollapse cs true else '-' :: wsCollapse cs true
    else c :: wsCollapse cs false

/-- `name.toLowerCase().replace(/\s+/g, '-')`. -/
def normalizeLogicalName (s : String) : String :=
  String.mk (wsCollapse (s.data.map jsCharToLower) false)

/-- Token language covering exactly the constructs appearing in the source
regular expressions: literal runs, a single character of a class, and greedy
`*` / `+` repetition of a character class. -/
inductive RTok where
  | lit : List Char → RTok
  | one : (Char → Bool) → RTok
  | star : (Char → Bool) → RTok
  | rep1 : (Char → Bool) → RTok

/-- Backtracking helper for greedy repetition: try the continuation `f` after
consuming `k, k-1, ..., lo` characters of the repeated class (longest
first). -/
def tryDownO (f : List Char → Option (List Char)) (l : List Char) (lo : Nat) :
    Nat → Option (List Char)
  | 0 => f l
  | k + 1 =>
      match f (l.drop (k + 1)) with
      | some r => some r
      | none => if k + 1 ≤ lo then none else tryDownO f l lo k

/-- Backtracking matcher: match the token sequence against a prefix of `l`,
returning the remaining suffix on success.  Repetition is greedy with
backtracking, the JavaScript regex semantics on this token language. -/
def matchToks : List RTok → List Char → Option (List Char)
  | [], l => some l
  | .lit s :: rest, l =>
      if l.take s.length = s then matchToks rest (l.drop s.length) else none
  | .one p :: rest, l =>
      match l with
      | [] => none
      | c :: cs => if p c then matchToks rest cs else none
  | .star p :: rest, l => tryDownO (matchToks rest) l 0 (l.takeWhile p).length
  | .rep1 p :: rest, l =>
      let n := (l.takeWhile p).length
      if n = 0 then none else tryDownO (matchToks rest) l 1 n

/-- First alternative that matches at the head of `l`; returns the number of
characters consumed.  JavaScript alternation tries alternatives left to
right. -/
def matchAltAt (alts : List (List RTok)) (l : List Char) : Option Nat :=
  match alts with
  | [] => none
  | a :: rest =>
      match matchToks a l with
      | some r => some (l.length - r.length)
      | none => matchAltAt rest l

/-- A compiled source regex: an optional `^` anchor, an optional leading
word-boundary `\b`, and an alternation of token sequences.  Every `\b` in
the source patterns is immediately followed by a word character, so the
boundary holds at a match exactly when the preceding character is absent or
not a word character. -/
structure JsRe where
  anchored : Bool := false
  wordB : Bool := false
  alts : List (List RTok)

/-- The leading word-boundary test given the character before the current
position. -/
def boundaryOk (wb : Bool) (prev : Option Char) : Bool :=
  !wb || (match prev with | none => true | some c => !isWordChar c)

/-- Search helper: is there a match starting at any position of `l`, where
`prev` is the character just before `l`? -/
def searchAux (alts : List (List RTok)) (wb : Bool) : Option Char → List Char → Bool
  | prev, [] => boundaryOk wb prev && (matchAltAt alts []).isSome
  | prev, c :: cs =>
      (boundaryOk wb prev && (matchAltAt alts (c :: cs)).isSome) ||
      searchAux alts wb (some c) cs

/-- `RegExp.test`. -/
def testRe (re : JsRe) (s : String) : Bool :=
  if re.anchored then (matchAltAt re.alts s.data).isSome
  else searchAux re.alts re.wordB none s.data

/-- Count of successive non-overlapping matches (`String.match` with the `g`
flag): scan left to right, resuming after each match, advancing one
character past a zero-width match.  The leading `Nat` is fuel, set to the
string length by `countRe`: every step consumes at least one character, so
the fuel never runs out before the scan ends. -/
def countGo (alts : List (List RTok)) (wb : Bool) : Nat → Option Char → List Char → Nat
  | 0, _, _ => 0
  | _ + 1, _, [] => 0
  | fuel + 1, prev, c :: cs =>
      match (if boundaryOk wb prev then matchAltAt alts (c :: cs) else none) with
      | some n =>
          if n ≤ 1 then 1 + countGo alts wb fuel (some c) cs
          else 1 + countGo alts wb fuel ((c :: cs).take n).getLast? ((c :: cs).drop n)
      | none => countGo alts wb fuel (some c) cs

/-- Number of matches of the regex in the string (`0` when `match` returns
`null`). -/
def countRe (re : JsRe) (s : String) : Nat :=
  if re.anchored then (if (matchAltAt re.alts s.data).isSome then 1 else 0)
  else countGo re.alts re.wordB s.data.length none s.data

/-- Literal token from a string. -/
def tokL (s : String) : RTok := .lit s.data

/-- `\s*`. -/
def wsStar : RTok := .star isJsSpace

/-- `\s+`. -/
def wsPlus : RTok := .rep1 isJsSpace

/-- `\w+`. -/
def wordPlus : RTok := .rep1 isWordChar

/-- `["']`. -/
def quoteTok : RTok := .one (fun c => c = dquote || c = squote)

/-- The server `config` fields consulted by the embedded functions. -/
structure Config where
  powerPagesPath : String
  snippetsPath : String
  templatesPath : String
  pagesPath : String
  liquidExcludes : Option (List String)

/-- The `jsPatterns` array of `LiquidEngine.isJavaScriptContent`, in source
order; the classifier returns true as soon as one of these tests the
content positively. -/
def jsPatternList : List JsRe := [
  -- /^\s*\/\*[\s\S]*?\*\//  block comment at start
  { anchored := true, alts := [[wsStar, tokL "/*", .star (fun _ => true), tokL "*/"]] },
  -- /^\s*\/\//
  { anchored := true, alts := [[wsStar, tokL "//"]] },
  -- /^\s*\(function\s*\(/
  { anchored := true, alts := [[wsStar, tokL "(function", wsStar, tokL "("]] },
  -- /^\s*function\s+\w+/
  { anchored := true, alts := [[wsStar, tokL "function", wsPlus, wordPlus]] },
  -- /^\s*var\s+\w+/
  { anchored := true, alts := [[wsStar, tokL "var", wsPlus, wordPlus]] },
  -- /^\s*const\s+\w+/
  { anchored := true, alts := [[wsStar, tokL "const", wsPlus, wordPlus]] },
  -- /^\s*let\s+\w+/
  { anchored := true, alts := [[wsStar, tokL "let", wsPlus, wordPlus]] },
  -- /typeof\s+exports/
  { alts := [[tokL "typeof", wsPlus, tokL "exports"]] },
  -- /typeof\s+define/
  { alts := [[tokL "typeof", wsPlus, tokL "define"]] },
  -- /global\s*=\s*typeof\s*globalThis/
  { alts := [[tokL "global", wsStar, tokL "=", wsStar, tokL "typeof", wsStar,
              tokL "globalThis"]] },
  -- /!function\s*\(/
  { alts := [[tokL "!function", wsStar, tokL "("]] },
  -- /window\s*\[\s*["']ReactDOM["']\s*\]/
  { alts := [[tokL "window", wsStar, tokL "[", wsStar, quoteTok, tokL "ReactDOM",
              quoteTok, wsStar, tokL "]"]] },
  -- /e\s*=\s*e\s*\|\|\s*self/
  { alts := [[tokL "e", wsStar, tokL "=", wsStar, tokL "e", wsStar, tokL "||",
              wsStar, tokL "self"]] },
  -- /<script[^>]*type=["']text\/babel["'][^>]*>/
  { alts := [[tokL "<script", .star (fun c => c ≠ '>'), tokL "type=", quoteTok,
              tokL "text/babel", quoteTok, .star (fun c => c ≠ '>'), tokL ">"]] },
  -- /React\.createElement/
  { alts := [[tokL "React.createElement"]] },
  -- /ReactDOM\./
  { alts := [[tokL "ReactDOM."]] },
  -- /React\.__SECRET_INTERNALS_DO_NOT_USE_OR_YOU_WILL_BE_FIRED/
  { alts := [[tokL "React.__SECRET_INTERNALS_DO_NOT_USE_OR_YOU_WILL_BE_FIRED"]] },
  -- /ReactCurrentDispatcher/
  { alts := [[tokL "ReactCurrentDispatcher"]] },
  -- /ReactCurrentBatchConfig/
  { alts := [[tokL "ReactCurrentBatchConfig"]] },
  -- /prepareStackTrace/
  { alts := [[tokL "prepareStackTrace"]] },
  -- /Error\.prepareStackTrace/
  { alts := [[tokL "Error.prepareStackTrace"]] },
  -- /ReactDebugCurrentFrame/
  { alts := [[tokL "ReactDebugCurrentFrame"]] },
  -- /getStackAddendum/
  { alts := [[tokL "getStackAddendum"]] },
  -- /"object"==typeof exports&&"undefined"!=typeof module/
  { alts := [[tokL "\"object\"==typeof exports&&\"undefined\"!=typeof module"]] },
  -- /define\.amd\?define/
  { alts := [[tokL "define.amd?define"]] },
  -- /this,\(function\(e,t\)\{"use strict"/
  { alts := [[tokL "this,(function(e,t)\x7b\"use strict\""]] }]

/-- `/function\s*\(/g`, also reused by the very-large-content check. -/
def functionCallRe : JsRe := { alts := [[tokL "function", wsStar, tokL "("]] }

/-- The `jsIndicators` regexes that carry the `g` flag, in source order;
each contributes its number of matches to `indicatorCount`. -/
def jsIndicatorList : List JsRe := [
  -- /typeof\s+\w+/g
  { alts := [[tokL "typeof", wsPlus, wordPlus]] },
  -- /function\s*\(/g
  functionCallRe,
  -- /\bvar\s+\w+/g
  { wordB := true, alts := [[tokL "var", wsPlus, wordPlus]] },
  -- /\bconst\s+\w+/g
  { wordB := true, alts := [[tokL "const", wsPlus, wordPlus]] },
  -- /\blet\s+\w+/g
  { wordB := true, alts := [[tokL "let", wsPlus, wordPlus]] },
  -- /console\.[a-zA-Z]+\s*\(/g
  { alts := [[tokL "console.", .rep1 isAsciiLetter, wsStar, tokL "("]] },
  -- /\b\w+\s*=\s*function\s*\(/g
  { wordB := true,
    alts := [[wordPlus, wsStar, tokL "=", wsStar, tokL "function", wsStar, tokL "("]] },
  -- /\bif\s*\([^)]+\)\s*\{/g
  { wordB := true,
    alts := [[tokL "if", wsStar, tokL "(", .rep1 (fun c => c ≠ ')'), tokL ")",
              wsStar, tokL "\x7b"]] },
  -- /\bfor\s*\([^)]+\)\s*\{/g
  { wordB := true,
    alts := [[tokL "for", wsStar, tokL "(", .rep1 (fun c => c ≠ ')'), tokL ")",
              wsStar, tokL "\x7b"]] },
  -- /\btry\s*\{/g
  { wordB := true, alts := [[tokL "try", wsStar, tokL "\x7b"]] },
  -- /\bcatch\s*\(/g
  { wordB := true, alts := [[tokL "catch", wsStar, tokL "("]] },
  -- /===|!==|&&|\|\|/g
  { alts := [[tokL "==="], [tokL "!=="], [tokL "&&"], [tokL "||"]] },
  -- /\b\w+\.prototype\./g
  { wordB := true, alts := [[wordPlus, tokL ".prototype."]] },
  -- /\bnew\s+\w+\s*\(/g
  { wordB := true, alts := [[tokL "new", wsPlus, wordPlus, wsStar, tokL "("]] },
  -- /\bthis\./g
  { wordB := true, alts := [[tokL "this."]] },
  -- /\breturn\s+[^;]+;/g
  { wordB := true,
    alts := [[tokL "return", wsPlus, .rep1 (fun c => c ≠ ';'), tokL ";"]] },
  -- /\bcase\s+[^:]+:/g
  { wordB := true,
    alts := [[tokL "case", wsPlus, .rep1 (fun c => c ≠ ':'), tokL ":"]] },
  -- /ReactCurrentBatchConfig/g
  { alts := [[tokL "ReactCurrentBatchConfig"]] },
  -- /ReactCurrentDispatcher/g
  { alts := [[tokL "ReactCurrentDispatcher"]] },
  -- /ReactDebugCurrentFrame/g
  { alts := [[tokL "ReactDebugCurrentFrame"]] },
  -- /ReactDOM\./g
  { alts := [[tokL "ReactDOM."]] },
  -- /React\./g
  { alts := [[tokL "React."]] },
  -- /__SECRET_INTERNALS_DO_NOT_USE_OR_YOU_WILL_BE_FIRED/g
  { alts := [[tokL "__SECRET_INTERNALS_DO_NOT_USE_OR_YOU_WILL_BE_FIRED"]] },
  -- /prepareStackTrace/g
  { alts := [[tokL "prepareStackTrace"]] },
  -- /getStackAddendum/g
  { alts := [[tokL "getStackAddendum"]] },
  -- /"object"==typeof/g
  { alts := [[tokL "\"object\"==typeof"]] },
  -- /"function"==typeof/g
  { alts := [[tokL "\"function\"==typeof"]] },
  -- /"undefined"!=typeof/g
  { alts := [[tokL "\"undefined\"!=typeof"]] }]

/-- `indicatorCount`: the first `jsIndicators` entry, `/\bReactDOM\s*=\s*{}/`,
has no `g` flag, so its `match` contributes one entry when it occurs at all;
every other entry contributes its global match count. -/
def indicatorCount (content : String) : Nat :=
  (if testRe { wordB := true, alts := [[tokL "ReactDOM", wsStar, tokL "=", wsStar,
        tokL "\x7b\x7d"]] } content then 1 else 0) +
  (jsIndicatorList.map (fun re => countRe re content)).sum

/-- `/ReactDOM|React\.__SECRET_INTERNALS|ReactCurrentDispatcher|ReactDebugCurrentFrame/`. -/
def hasReactDOMSignature (content : String) : Bool :=
  testRe { alts := [[tokL "ReactDOM"], [tokL "React.__SECRET_INTERNALS"],
                    [tokL "ReactCurrentDispatcher"],
                    [tokL "ReactDebugCurrentFrame"]] } content

/-- `/"object"==typeof exports&&"undefined"!=typeof module/`. -/
def hasUMDPattern (content : String) : Bool :=
  testRe { alts := [[tokL "\"object\"==typeof exports&&\"undefined\"!=typeof module"]] }
    content

/-- `/!function\(e,t\)\{"use strict"/.test(content) || /this,\(function\(e,t\)/.test(content)`. -/
def hasMinifiedJSPattern (content : String) : Bool :=
  testRe { alts := [[tokL "!function(e,t)\x7b\"use strict\""]] } content ||
  testRe { alts := [[tokL "this,(function(e,t)"]] } content

/-- `contentLength > 100000 && (content.match(/function\s*\(/g) || []).length > 100`. -/
def isVeryLargeWithJSPatterns (content : String) : Bool :=
  content.data.length > 100000 && countRe functionCallRe content > 100

/-- `this.config.liquidExcludes && this.config.liquidExcludes.some(...)`:
when no exclusion list is configured the whole expression is falsy, even if
the content carries the hard-coded React signatures tested inside the
callback. -/
def containsExcludedSignatures (cfg : Config) (content : String) : Bool :=
  match cfg.liquidExcludes with
  | none => false
  | some l => l.any (fun excludedFile =>
      jsIncludes content excludedFile ||
      jsIncludes content "react-dom.development.js" ||
      jsIncludes content "react.development.js" ||
      jsIncludes content "__SECRET_INTERNALS_DO_NOT_USE_OR_YOU_WILL_BE_FIRED")

/-- `LiquidEngine.isJavaScriptContent`.  The floating-point ratio
`indicatorCount / (contentLength / 1000)` is compared by exact
cross-multiplication: `jsRatio > r` becomes
`indicatorCount * 1000 > r * contentLength` (for empty content the count is
zero, matching the `NaN` comparison yielding false). -/
def isJavaScriptContent (cfg : Config) (content : String) : Bool :=
  let ic := indicatorCount content
  let contentLength := content.data.length
  jsPatternList.any (fun re => testRe re content) ||
  hasReactDOMSignature content ||
  hasUMDPattern content ||
  hasMinifiedJSPattern content ||
  isVeryLargeWithJSPatterns content ||
  containsExcludedSignatures cfg content ||
  ic > 20 ||
  (decide (ic * 1000 > 2 * contentLength) && decide (contentLength > 1000)) ||
  (decide (contentLength > 50000) && decide (ic * 1000 > contentLength))

/-- The file-system operations the handlers perform, as a record of total
functions: `fs.pathExists` models `fs.pathExists`, `fs.readdir` the directory
listing, `fs.readFile` reading a file as UTF-8 text. -/
structure Fs where
  pathExists : String → Bool
  readdir : String → List String
  readFile : String → String

/-- Match of `/\{\{\s*Snippets\.([^}]+)\s*\}\}/` at the head of `l`:
returns the match length and the capture (the greedy `[^}]+`, which also
swallows the whitespace the trailing `\s*` would otherwise take). -/
def snippetTokenAt (l : List Char) : Option (Nat × String) :=
  match l with
  | a :: b :: r1 =>
      if a = lbrace ∧ b = lbrace then
        let nws := (r1.takeWhile isJsSpace).length
        let r2 := r1.drop nws
        if r2.take 9 = "Snippets.".data then
          let r3 := r2.drop 9
          let inner := r3.takeWhile (fun c => c ≠ rbrace)
          let r4 := r3.drop inner.length
          if inner.length ≥ 1 then
            match r4 with
            | x :: y :: _ =>
                if x = rbrace ∧ y = rbrace then
                  some (2 + nws + 9 + inner.length + 2, String.mk inner)
                else none
            | _ => none
          else none
        else none
      else none
  | _ => none

/-- Match of `/{%\s*include\s+['"]([^'"]+)['"]\s*%}/` at the head of `l`:
the two quote characters are matched independently, as in the source
character classes. -/
def includeTokenAt (l : List Char) : Option (Nat × String) :=
  match l with
  | a :: b :: r1 =>
      if a = lbrace ∧ b = '%' then
        let nws1 := (r1.takeWhile isJsSpace).length
        let r2 := r1.drop nws1
        if r2.take 7 = "include".data then
          let r3 := r2.drop 7
          let nws2 := (r3.takeWhile isJsSpace).length
          if nws2 ≥ 1 then
            match r3.drop nws2 with
            | q1 :: r5 =>
                if q1 = squote ∨ q1 = dquote then
                  let inner := r5.takeWhile (fun c => ¬(c = squote ∨ c = dquote))
                  if inner.length ≥ 1 then
                    match r5.drop inner.length with
                    | q2 :: r7 =>
                        if q2 = squote ∨ q2 = dquote then
                          let nws3 := (r7.takeWhile isJsSpace).length
                          match r7.drop nws3 with
                          | p1 :: p2 :: _ =>
                              if p1 = '%' ∧ p2 = rbrace then
                                some (2 + nws1 + 7 + nws2 + 1 + inner.length + 1 +
                                      nws3 + 2, String.mk inner)
                              else none
                          | _ => none
                        else none
                    | _ => none
                  else none
                else none
            | _ => none
          else none
        else none
      else none
  | _ => none

/-- `[...content.matchAll(re)]`: scan left to right, collecting
`(match[0], match[1])` pairs and resuming after each match.  The leading
`Nat` is fuel set to the string length; every step consumes at least one
character. -/
def scanTokens (tokAt : List Char → Option (Nat × String)) : Nat → List Char →
    List (String × String)
  | 0, _ => []
  | fuel + 1, l =>
      match l with
      | [] => []
      | c :: cs =>
          match tokAt (c :: cs) with
          | some (n, cap) =>
              (String.mk ((c :: cs).take n), cap) ::
                scanTokens tokAt fuel ((c :: cs).drop (max n 1))
          | none => scanTokens tokAt fuel cs

/-- All `{{ Snippets.Name }}` references of the content, in order. -/
def matchAllSnippetRefs (s : String) : List (String × String) :=
  scanTokens snippetTokenAt s.data.length s.data

/-- All `{% include 'Name' %}` tags of the content, in order. -/
def matchAllIncludes (s : String) : List (String × String) :=
  scanTokens includeTokenAt s.data.length s.data

/-- `LiquidEngine.isJavaScriptFile`: case-insensitive tests
`/\.js$/ /react/ /redux/ /bootstrap/ /jquery/ /babel/ /webpack/ /polyfill/`
against the file name. -/
def isJavaScriptFile (fileName : String) : Bool :=
  let lf := jsToLower fileName
  jsEndsWith lf ".js" || jsIncludes lf "react" || jsIncludes lf "redux" ||
  jsIncludes lf "bootstrap" || jsIncludes lf "jquery" || jsIncludes lf "babel" ||
  jsIncludes lf "webpack" || jsIncludes lf "polyfill"

/-- JavaScript `.` (no `s` flag): any character except line terminators. -/
def isDotChar (c : Char) : Bool := !(c = Char.ofNat 10 || c = Char.ofNat 13)

/-- `LiquidEngine.containsLiquidSyntax`: the four Liquid delimiters tested
with lazy any-character gaps. -/
def containsLiquidSyntax (content : String) : Bool :=
  testRe { alts := [[tokL "\x7b\x7b", .star isDotChar, tokL "\x7d\x7d"]] } content ||
  testRe { alts := [[tokL "\x7b%", .star isDotChar, tokL "%\x7d"]] } content ||
  testRe { alts := [[tokL "\x7b\x7b-", .star isDotChar, tokL "-\x7d\x7d"]] } content ||
  testRe { alts := [[tokL "\x7b%-", .star isDotChar, tokL "-%\x7d"]] } content

/-- `LiquidEngine.shouldSkipLiquidProcessing`: configured exclusion list
first, then pure-JavaScript detection tempered by Liquid syntax. -/
def shouldSkipLiquidProcessing (cfg : Config) (fileName content : String) : Bool :=
  if (match cfg.liquidExcludes with
      | some l => l.contains fileName
      | none => false) then true
  else if !isJavaScriptFile fileName then false
  else if content ≠ "" && containsLiquidSyntax content then false
  else true

/-- The `for`-loops of `preprocessIncludes`: for each precomputed match,
replace its first occurrence in the accumulated content by the resolved
content of its captured name. -/
def applyRefLoop (f : String → String) : List (String × String) → String → String
  | [], acc => acc
  | (full, cap) :: rest, acc => applyRefLoop f rest (jsReplaceFirst acc full (f cap))

/-- The body of `LiquidEngine.loadSnippetContent`, parameterised by the
recursive continuation `pre` (the nested `preprocessIncludes` call at the
same depth): normalize the name to a directory, prefer a
`.contentsnippet.value.html` file over a `.contentsnippet.html` one, and
recursively preprocess the found content; otherwise the snippet-not-found
marker. -/
def loadSnippetContentWith (pre : String → String) (cfg : Config) (fs : Fs)
    (name : String) : String :=
  let snippetPath := pathJoin (pathJoin cfg.powerPagesPath cfg.snippetsPath)
    (normalizeLogicalName name)
  if fs.pathExists snippetPath then
    match ((fs.readdir snippetPath).find?
              (fun f => jsEndsWith f ".contentsnippet.value.html") <|>
           (fs.readdir snippetPath).find?
              (fun f => jsEndsWith f ".contentsnippet.html")) with
    | some htmlFile => pre (fs.readFile (pathJoin snippetPath htmlFile))
    | none => "<!-- Snippet not found: " ++ name ++ " -->"
  else "<!-- Snippet not found: " ++ name ++ " -->"

/-- The body of `LiquidEngine.processInclude`, parameterised by the recursive
continuation `pre`: look in snippet storage if the snippet directory exists
(any `*.html` file), otherwise in template storage
(`*.webtemplate.source.html`); non-empty content is returned as-is when
`shouldSkipLiquidProcessing` fires, else recursively preprocessed; empty
content yields the include-not-found marker. -/
def processIncludeWith (pre : String → String) (cfg : Config) (fs : Fs)
    (includeName : String) : String :=
  let snippetPath := pathJoin (pathJoin cfg.powerPagesPath cfg.snippetsPath)
    (normalizeLogicalName includeName)
  let templatePath := pathJoin (pathJoin cfg.powerPagesPath cfg.templatesPath)
    (normalizeLogicalName includeName)
  let content :=
    if fs.pathExists snippetPath then
      match (fs.readdir snippetPath).find? (fun f => jsEndsWith f ".html") with
      | some htmlFile => fs.readFile (pathJoin snippetPath htmlFile)
      | none => ""
    else if fs.pathExists templatePath then
      match (fs.readdir templatePath).find?
          (fun f => jsEndsWith f ".webtemplate.source.html") with
      | some wf => fs.readFile (pathJoin templatePath wf)
      | none => ""
    else ""
  if content ≠ "" then
    if shouldSkipLiquidProcessing cfg includeName content then content
    else pre content
  else "<!-- Include not found: " ++ includeName ++ " -->"

/-- Worker for the mutually recursive trio `preprocessIncludes` /
`loadSnippetContent` / `processInclude`.  The extra `Nat` is the gas
`11 - depth`: the source guard `depth > 10` holds exactly when the gas is
zero, and every nested resolution increments `depth` by one, so recursion is
structural on the gas.  `preprocessIncludes_unfold` below recovers the
faithful mutual unfolding in terms of the named wrappers. -/
def preInclGo (cfg : Config) (fs : Fs) : Nat → String → Nat → String
  | 0, t, _ => t
  | g + 1, t, depth =>
      let c1 := applyRefLoop
        (fun nm => loadSnippetContentWith
          (fun c => preInclGo cfg fs g c (depth + 1)) cfg fs (jsTrim nm))
        (matchAllSnippetRefs t) t
      applyRefLoop
        (fun nm => processIncludeWith
          (fun c => preInclGo cfg fs g c (depth + 1)) cfg fs nm)
        (matchAllIncludes c1) c1

/-- `LiquidEngine.preprocessIncludes`. -/
def preprocessIncludes (cfg : Config) (fs : Fs) (templateContent : String)
    (depth : Nat) : String :=
  preInclGo cfg fs (11 - depth) templateContent depth

/-- `LiquidEngine.loadSnippetContent`. -/
def loadSnippetContent (cfg : Config) (fs : Fs) (snippetName : String)
    (depth : Nat) : String :=
  loadSnippetContentWith (fun c => preprocessIncludes cfg fs c depth) cfg fs
    snippetName

/-- `LiquidEngine.processInclude`. -/
def processInclude (cfg : Config) (fs : Fs) (includeName : String)
    (depth : Nat) : String :=
  processIncludeWith (fun c => preprocessIncludes cfg fs c depth) cfg fs
    includeName


/-- An error thrown by the external `liquidjs` expression engine
(`TemplateSyntaxError` / render runtime error). -/
structure EngineError where
  message : String

/-- The external `liquidjs` `engine.parseAndRender`, abstracted as a function
that either produces rendered output or throws. -/
def Engine : Type := String → Except EngineError String

/-- `LiquidEngine.render`: classify the original source; if JavaScript,
return it untouched; otherwise expand includes at depth 0, re-classify the
expanded result; if JavaScript, return it untouched; otherwise run the
expression engine.  The source `catch` rethrows, so an engine failure
propagates to the caller as the error branch. -/
def render (engine : Engine) (cfg : Config) (fs : Fs)
    (templateContent : String) : Except EngineError String :=
  if isJavaScriptContent cfg templateContent then .ok templateContent
  else
    let processedContent := preprocessIncludes cfg fs templateContent 0
    if isJavaScriptContent cfg processedContent then .ok processedContent
    else engine processedContent

/-- `TemplateHandler.getTemplate`, restricted to the template content: the
directory is the lowercased name under template storage and the content the
first `*.webtemplate.source.html` file there.  The in-memory cache and the
yaml sidecar config are elided: `renderTemplate` reads only the content. -/
def getTemplate (cfg : Config) (fs : Fs) (templateName : String) : Option String :=
  let templateDir := pathJoin (pathJoin cfg.powerPagesPath cfg.templatesPath)
    (jsToLower templateName)
  if fs.pathExists templateDir then
    match (fs.readdir templateDir).find?
        (fun f => jsEndsWith f ".webtemplate.source.html") with
    | some sourceFile => some (fs.readFile (pathJoin templateDir sourceFile))
    | none => none
  else none

/-- `TemplateHandler.renderTemplate`: a missing template becomes an inline
marker, and any error thrown by `render` is caught and becomes the
template-render-error marker — the function itself never throws. -/
def renderTemplate (engine : Engine) (cfg : Config) (fs : Fs)
    (templateName : String) : Except EngineError String :=
  match getTemplate cfg fs templateName with
  | none => .ok ("<!-- Template not found: " ++ templateName ++ " -->")
  | some content =>
      match render engine cfg fs content with
      | .ok rendered => .ok rendered
      | .error _ => .ok ("<!-- Template render error: " ++ templateName ++ " -->")

/-- Does `f` match `/\.[a-zA-Z]{2}-[a-zA-Z]{2}/` immediately followed by the
given suffix at the end of the name (a language-qualified snippet file)? -/
def endsWithLangQualified (f suffix : String) : Bool :=
  let r := f.data.reverse
  let rs := suffix.data.reverse
  if List.isPrefixOf rs r then
    match r.drop rs.length with
    | l2 :: l1 :: hyph :: m2 :: m1 :: dot :: _ =>
        isAsciiLetter l2 && isAsciiLetter l1 && hyph = '-' &&
        isAsciiLetter m2 && isAsciiLetter m1 && dot = '.'
    | _ => false
  else false

/-- `SnippetHandler.getSnippet`, restricted to the snippet content: the
directory is the normalized name under snippet storage, and the file chosen
by the four-step preference — language-qualified `.contentsnippet.value.html`,
then bare `.contentsnippet.value.html`, then language-qualified
`.contentsnippet.html`, then bare `.contentsnippet.html`.  The cache and the
yaml sidecar are elided: `renderSnippet` reads only the content. -/
def getSnippet (cfg : Config) (fs : Fs) (snippetName : String) : Option String :=
  let snippetDir := pathJoin (pathJoin cfg.powerPagesPath cfg.snippetsPath)
    (normalizeLogicalName snippetName)
  if fs.pathExists snippetDir then
    let files := fs.readdir snippetDir
    match (files.find? (fun f => endsWithLangQualified f ".contentsnippet.value.html") <|>
           files.find? (fun f => jsEndsWith f ".contentsnippet.value.html") <|>
           files.find? (fun f => endsWithLangQualified f ".contentsnippet.html") <|>
           files.find? (fun f => jsEndsWith f ".contentsnippet.html")) with
    | some htmlFile => some (fs.readFile (pathJoin snippetDir htmlFile))
    | none => none
  else none

/-- `SnippetHandler.renderSnippet`: an unresolved snippet becomes the
snippet-not-found marker; an error thrown by `render` is caught and becomes
the snippet-render-error marker. -/
def renderSnippet (engine : Engine) (cfg : Config) (fs : Fs)
    (snippetName : String) : Except EngineError String :=
  match getSnippet cfg fs snippetName with
  | none => .ok ("<!-- Snippet not found: " ++ snippetName ++ " -->")
  | some content =>
      match render engine cfg fs content with
      | .ok rendered => .ok rendered
      | .error _ => .ok ("<!-- Snippet render error: " ++ snippetName ++ " -->")

/-- The record `PageHandler.getPageContent` resolves. -/
structure PageContent where
  content : String
  customCss : String
  customJs : String
  hasLanguageFile : Bool
  deriving DecidableEq

/-- `PageHandler.getPageContent`: look for a `*.webpage.copy.html` content
file whose name contains the requested language; fall back to the first
`*.webpage.copy.html` file of any language; return `none` when the content
directory or any content file is missing.  (The source computes
`langCode = language.replace('-', '-')`, an identity; CSS/JS sidecars are
loaded identically in both branches.) -/
def getPageContent (cfg : Config) (fs : Fs) (pageDirectory language : String) :
    Option PageContent :=
  let contentDir := pathJoin (pathJoin (pathJoin cfg.powerPagesPath cfg.pagesPath)
    pageDirectory) "content-pages"
  if fs.pathExists contentDir then
    let contentFiles := fs.readdir contentDir
    let langCode := jsReplaceFirst language "-" "-"
    let customCss :=
      match contentFiles.find? (fun f => jsEndsWith f ".webpage.custom_css.css") with
      | some f => fs.readFile (pathJoin contentDir f)
      | none => ""
    let customJs :=
      match contentFiles.find? (fun f => jsEndsWith f ".webpage.custom_javascript.js") with
      | some f => fs.readFile (pathJoin contentDir f)
      | none => ""
    match contentFiles.find?
        (fun f => jsIncludes f langCode && jsEndsWith f ".webpage.copy.html") with
    | some contentFile =>
        some { content := fs.readFile (pathJoin contentDir contentFile),
               customCss := customCss, customJs := customJs,
               hasLanguageFile := true }
    | none =>
        match contentFiles.find? (fun f => jsEndsWith f ".webpage.copy.html") with
        | some fallbackFile =>
            some { content := fs.readFile (pathJoin contentDir fallbackFile),
                   customCss := customCss, customJs := customJs,
                   hasLanguageFile := false }
        | none => none
  else none

/-- The request-matching fields of a persisted mock rule. -/
structure MockRequest where
  method : String
  endpoint : String
  queryParams : List (String × String)
  deriving DecidableEq

/-- A persisted mock rule (the response payload plays no part in matching
and is omitted).  `createdAt` is the timestamp `new Date(createdAt)`
compares by. -/
structure MockRule where
  name : String
  enabled : Bool
  priority : Int
  createdAt : Int
  request : MockRequest
  deriving DecidableEq

/-- The key-field list of `MockMiddleware.matchesQueryParams`. -/
def keyFields : List String := ["incidentid", "ticketnumber", "statuscode"]

/-- `value.split(',')`, implemented structurally (an empty string yields
`[""]`, adjacent commas yield empty fields, as in JavaScript). -/
def splitCommaAux : List Char → List Char → List String
  | [], acc => [String.mk acc.reverse]
  | c :: cs, acc =>
      if c = ',' then String.mk acc.reverse :: splitCommaAux cs []
      else splitCommaAux cs (c :: acc)

/-- `value.split(',').map(f => f.trim())`. -/
def splitTrim (v : String) : List String := (splitCommaAux v.data []).map jsTrim

/-- `MockMiddleware.matchesQueryParams`: every constraint key must be
present with a truthy value; a `$select` constraint passes when both field
lists contain one of the key fields (not necessarily the same one);
everything else falls through to exact string equality. -/
def matchesQueryParams (mockQueryParams reqQuery : List (String × String)) : Bool :=
  match mockQueryParams with
  | [] => true
  | (key, mockValue) :: rest =>
      match reqQuery.lookup key with
      | none => false
      | some reqValue =>
          if reqValue = "" then false
          else if key = "$select" &&
              keyFields.any (fun fld => (splitTrim mockValue).contains fld) &&
              keyFields.any (fun fld => (splitTrim reqValue).contains fld) then
            matchesQueryParams rest reqQuery
          else if mockValue = reqValue then matchesQueryParams rest reqQuery
          else false

/-- Full-match backtracking helper: try the Boolean continuation after
consuming `k, ..., lo` characters of a repeated class. -/
def tryDownB (f : List Char → Bool) (l : List Char) (lo : Nat) : Nat → Bool
  | 0 => f l
  | k + 1 => f (l.drop (k + 1)) || (if k + 1 ≤ lo then false else tryDownB f l lo k)

/-- Does the token sequence match the whole of `l` (a `^...$` regex test)? -/
def matchFull : List RTok → List Char → Bool
  | [], l => l.isEmpty
  | .lit s :: rest, l =>
      (if l.take s.length = s then matchFull rest (l.drop s.length) else false)
  | .one p :: rest, l =>
      (match l with | [] => false | c :: cs => p c && matchFull rest cs)
  | .star p :: rest, l => tryDownB (matchFull rest) l 0 (l.takeWhile p).length
  | .rep1 p :: rest, l =>
      let n := (l.takeWhile p).length
      if n = 0 then false else tryDownB (matchFull rest) l 1 n

/-- `mockPath.replace(/\*/g, '.*').replace(/\//g, '\\/')` compiled to
tokens: `*` becomes an unrestricted gap, a literal `.` in the path is the
regex any-character, everything else is literal (no other regex
metacharacter occurs in recorded endpoint paths). -/
def wildcardToks : List Char → List RTok
  | [] => []
  | c :: cs =>
      (if c = '*' then RTok.star (fun _ => true)
       else if c = '.' then RTok.one (fun _ => true)
       else RTok.lit [c]) :: wildcardToks cs

/-- `mockPath.replace(/:[^\/]+/g, '[^/]+')` compiled to tokens: each
`:param` segment (a colon followed by at least one non-slash character)
becomes a non-empty non-slash gap.  The leading `Nat` is fuel set to the
path length. -/
def colonToksGo : Nat → List Char → List RTok
  | 0, _ => []
  | _ + 1, [] => []
  | fuel + 1, c :: cs =>
      if c = ':' ∧ (cs.takeWhile (fun x => x ≠ '/')).length ≥ 1 then
        RTok.rep1 (fun x => x ≠ '/') ::
          colonToksGo fuel (cs.dropWhile (fun x => x ≠ '/'))
      else
        (if c = '.' then RTok.one (fun _ => true) else RTok.lit [c]) ::
          colonToksGo fuel cs

/-- Token compilation of a `:param` endpoint pattern. -/
def colonToks (l : List Char) : List RTok := colonToksGo l.length l

/-- `mockPath`: the endpoint with any query string stripped
(`split('?')[0]`). -/
def stripQuery (endpoint : String) : String :=
  String.mk (endpoint.data.takeWhile (fun c => c ≠ '?'))

/-- `MockMiddleware.matchesRequest`: method equality against the uppercased
request method, then exact path match, then wildcard pattern, then
`:param` pattern; each successful path check defers to the query-parameter
check when the rule declares query constraints. -/
def matchesRequest (mock : MockRule) (reqMethod reqPath : String)
    (reqQuery : List (String × String)) : Bool :=
  if mock.request.method ≠ jsToUpper reqMethod then false
  else
    let mockPath := stripQuery mock.request.endpoint
    let queryOk : Bool :=
      if mock.request.queryParams.length > 0 then
        matchesQueryParams mock.request.queryParams reqQuery
      else true
    if mockPath = reqPath then queryOk
    else if jsIncludes mockPath "*" && matchFull (wildcardToks mockPath.data) reqPath.data then
      queryOk
    else if jsIncludes mockPath ":" && matchFull (colonToks mockPath.data) reqPath.data then
      queryOk
    else false

/-- The ordering `MockManager.saveMock` sorts by: priority descending, then
creation date descending — `a` comes no later than `b` when the comparator
`(a, b) => b.priority - a.priority || (Date(b) - Date(a))` is
non-positive. -/
def mockEarlier (a b : MockRule) : Bool :=
  decide (b.priority < a.priority) ||
  (decide (a.priority = b.priority) && decide (b.createdAt ≤ a.createdAt))

/-- Insertion into a list sorted by `mockEarlier`. -/
def insertSorted (x : MockRule) : List MockRule → List MockRule
  | [] => [x]
  | y :: ys => if mockEarlier x y then x :: y :: ys else y :: insertSorted x ys

/-- The comparator sort of `config.mocks.sort(...)`, modelled as insertion
sort (any comparator-consistent sort produces a list ordered by
`mockEarlier` on the same multiset). -/
def sortMocks (l : List MockRule) : List MockRule := l.foldr insertSorted []

/-- `MockManager.saveMock`: push the new rule then re-sort the persisted
list. -/
def saveMock (mocks : List MockRule) (mock : MockRule) : List MockRule :=
  sortMocks (mocks ++ [mock])

/-- Registering a sequence of rules through `saveMock`, starting from an
empty store. -/
def registerAll (l : List MockRule) : List MockRule := l.foldl saveMock []

/-- `MockMiddleware.loadMocks`: the active set keeps only enabled rules, in
persisted order. -/
def loadMocks (persisted : List MockRule) : List MockRule :=
  persisted.filter (fun m => m.enabled)

/-- `MockMiddleware.findMatchingMock`: first rule of the active list that
matches the request. -/
def findMatchingMock (mocks : List MockRule) (reqMethod reqPath : String)
    (reqQuery : List (String × String)) : Option MockRule :=
  mocks.find? (fun m => matchesRequest m reqMethod reqPath reqQuery)

/-! ## Concrete fixtures used by witnesses and counterexamples -/

/-- A minimal server configuration. -/
def demoCfg : Config :=
  { powerPagesPath := "pp", snippetsPath := "snippets",
    templatesPath := "templates", pagesPath := "pages", liquidExcludes := none }

/-- A file system with no directories at all. -/
def emptyFs : Fs :=
  { pathExists := fun _ => false, readdir := fun _ => [], readFile := fun _ => "" }

/-- Template storage in which template `a` includes `b` and template `b`
includes `a` — a cyclic include graph. -/
def cyclicFs : Fs :=
  { pathExists := fun p => p = "pp/templates/a" || p = "pp/templates/b",
    readdir := fun p =>
      if p = "pp/templates/a" then ["a.webtemplate.source.html"]
      else if p = "pp/templates/b" then ["b.webtemplate.source.html"]
      else [],
    readFile := fun p =>
      if p = "pp/templates/a/a.webtemplate.source.html" then "\x7b% include 'b' %\x7d"
      else if p = "pp/templates/b/b.webtemplate.source.html" then "\x7b% include 'a' %\x7d"
      else "" }

/-- A snippet directory for `w` that exists but holds no html file, next to
a template directory for `w` holding a proper web template source; and a
snippet directory for `n` holding a bare `.contentsnippet.html` listed
before a language-qualified `.contentsnippet.value.html`. -/
def shadowFs : Fs :=
  { pathExists := fun p =>
      p = "pp/snippets/w" || p = "pp/templates/w" || p = "pp/snippets/n",
    readdir := fun p =>
      if p = "pp/snippets/w" then ["readme.txt"]
      else if p = "pp/templates/w" then ["w.webtemplate.source.html"]
      else if p = "pp/snippets/n" then
        ["n.contentsnippet.html", "n.en-US.contentsnippet.value.html"]
      else [],
    readFile := fun p =>
      if p = "pp/templates/w/w.webtemplate.source.html" then "TPL"
      else if p = "pp/snippets/n/n.contentsnippet.html" then "BARE"
      else if p = "pp/snippets/n/n.en-US.contentsnippet.value.html" then "LANG"
      else "" }

/-- Template storage holding a JavaScript-classified template `a` and a
plain Liquid template `t`. -/
def jsTplFs : Fs :=
  { pathExists := fun p => p = "pp/templates/a" || p = "pp/templates/t",
    readdir := fun p =>
      if p = "pp/templates/a" then ["a.webtemplate.source.html"]
      else if p = "pp/templates/t" then ["t.webtemplate.source.html"]
      else [],
    readFile := fun p =>
      if p = "pp/templates/a/a.webtemplate.source.html" then "var x = 1"
      else if p = "pp/templates/t/t.webtemplate.source.html" then
        "hello \x7b\x7b name \x7d\x7d"
      else "" }

/-- Page storage for page `home` holding only an `en-US` content file and no
sidecars. -/
def pagesFs : Fs :=
  { pathExists := fun p => p = "pp/pages/home/content-pages",
    readdir := fun p =>
      if p = "pp/pages/home/content-pages" then ["home.en-US.webpage.copy.html"]
      else [],
    readFile := fun p =>
      if p = "pp/pages/home/content-pages/home.en-US.webpage.copy.html" then "EN"
      else "" }

/-- An expression engine that renders any template to itself. -/
def okEngine : Engine := fun s => .ok s

/-- An expression engine that always throws a syntax error. -/
def failEngine : Engine := fun _ => .error ⟨"parse error"⟩

/-- A JavaScript-classified template source containing an include tag. -/
def jsWithInclude : String := "var y = 2\n\x7b% include 'a' %\x7d"

/-- A low-priority mock rule matching `GET /api/x`, created later. -/
def lowMock : MockRule :=
  { name := "low", enabled := true, priority := 5, createdAt := 200,
    request := { method := "GET", endpoint := "/api/x", queryParams := [] } }

/-- A high-priority mock rule matching `GET /api/x`, created earlier. -/
def highMock : MockRule :=
  { name := "high", enabled := true, priority := 10, createdAt := 100,
    request := { method := "GET", endpoint := "/api/x", queryParams := [] } }

/-! ## Theorems -/

/-- The faithful mutual unfolding of `preprocessIncludes`: past the depth
guard the content is returned untouched; otherwise each
`{{ Snippets.Name }}` reference is replaced via `loadSnippetContent` at
`depth + 1` and then each `{% include 'Name' %}` tag via `processInclude`
at `depth + 1`. -/
theorem preprocessIncludes_unfold (cfg : Config) (fs : Fs) (t : String) (d : Nat) :
    preprocessIncludes cfg fs t d =
      if 10 < d then t
      else
        let c1 := applyRefLoop (fun nm => loadSnippetContent cfg fs (jsTrim nm) (d + 1))
          (matchAllSnippetRefs t) t
        applyRefLoop (fun nm => processInclude cfg fs nm (d + 1))
          (matchAllIncludes c1) c1 := by
  by_cases h : 10 < d
  · have hg : 11 - d = 0 := by omega
    simp [preprocessIncludes, hg, preInclGo, h]
  · have hg : 11 - d = (10 - d) + 1 := by omega
    have hg2 : 10 - d = 11 - (d + 1) := by omega
    simp only [preprocessIncludes, hg, preInclGo, h, if_false,
      loadSnippetContent, processInclude, hg2]

/-! ## Claim C6: idempotence of logical-name normalization -/

/-- `Char.ofNat` of a valid codepoint reads back as that codepoint. -/
theorem char_toNat_ofNat_valid (n : Nat) (h : n.isValidChar) :
    (Char.ofNat n).toNat = n := by
  unfold Char.ofNat
  rw [dif_pos h]
  unfold Char.ofNatAux Char.toNat
  simp [UInt32.toNat]

/-- ASCII lowercasing is idempotent: lowering lands outside the uppercase
range. -/
theorem jsCharToLower_idem (c : Char) :
    jsCharToLower (jsCharToLower c) = jsCharToLower c := by
  unfold jsCharToLower
  by_cases h : 65 ≤ c.toNat ∧ c.toNat ≤ 90
  · have hv : (c.toNat + 32).isValidChar := Or.inl (by omega)
    have ht : (Char.ofNat (c.toNat + 32)).toNat = c.toNat + 32 :=
      char_toNat_ofNat_valid _ hv
    rw [if_pos h, if_neg (by rw [ht]; omega)]
  · rw [if_neg h, if_neg h]

/-- Every character the whitespace collapse emits is a hyphen or a
non-whitespace character of the input. -/
theorem wsCollapse_mem {c : Char} :
    ∀ (l : List Char) (b : Bool), c ∈ wsCollapse l b →
      c = '-' ∨ (c ∈ l ∧ isJsSpace c = false) := by
  intro l
  induction l with
  | nil => intro b h; simp [wsCollapse] at h
  | cons d ds ih =>
      intro b h
      by_cases hd : isJsSpace d
      · cases b with
        | true =>
            simp only [wsCollapse, hd, if_true] at h
            rcases ih true h with h1 | ⟨h2, h3⟩
            · exact Or.inl h1
            · exact Or.inr ⟨List.mem_cons_of_mem _ h2, h3⟩
        | false =>
            simp only [wsCollapse, hd, if_true] at h
            rcases List.mem_cons.mp h with h1 | h1
            · exact Or.inl h1
            · rcases ih true h1 with h2 | ⟨h3, h4⟩
              · exact Or.inl h2
              · exact Or.inr ⟨List.mem_cons_of_mem _ h3, h4⟩
      · simp only [wsCollapse, hd, if_false] at h
        rcases List.mem_cons.mp h with h1 | h1
        · subst h1
          exact Or.inr ⟨List.mem_cons_self _ _, by simpa using hd⟩
        · rcases ih false h1 with h2 | ⟨h3, h4⟩
          · exact Or.inl h2
          · exact Or.inr ⟨List.mem_cons_of_mem _ h3, h4⟩

/-- On whitespace-free input the collapse is the identity. -/
theorem wsCollapse_id :
    ∀ (l : List Char) (b : Bool), (∀ c ∈ l, isJsSpace c = false) →
      wsCollapse l b = l := by
  intro l
  induction l with
  | nil => intro b _; rfl
  | cons d ds ih =>
      intro b hws
      have hd : isJsSpace d = false := hws d (List.mem_cons_self _ _)
      simp only [wsCollapse, hd, if_false, Bool.false_eq_true]
      rw [ih false (fun c hc => hws c (List.mem_cons_of_mem _ hc))]

/-- Mapping a function that fixes every member is the identity. -/
theorem map_id_of_mem {f : Char → Char} :
    ∀ (l : List Char), (∀ c ∈ l, f c = c) → l.map f = l := by
  intro l
  induction l with
  | nil => intro _; rfl
  | cons d ds ih =>
      intro hf
      simp only [List.map_cons, hf d (List.mem_cons_self _ _),
        ih (fun c hc => hf c (List.mem_cons_of_mem _ hc))]

/-- Claim C6: the logical-name-to-slug normalization
`name.toLowerCase().replace(/\s+/g, '-')` is idempotent —
`normalize (normalize x) = normalize x` for every string — and it maps
"Global React Components" to "global-react-components". -/
theorem normalizeLogicalName_idem_and_example :
    (∀ s : String,
      normalizeLogicalName (normalizeLogicalName s) = normalizeLogicalName s) ∧
    normalizeLogicalName "Global React Components" = "global-react-components" := by
  constructor
  · intro s
    show String.mk (wsCollapse ((wsCollapse (s.data.map jsCharToLower)
      false).map jsCharToLower) false) = _
    have hmem : ∀ c ∈ wsCollapse (s.data.map jsCharToLower) false,
        jsCharToLower c = c := by
      intro c hc
      rcases wsCollapse_mem _ _ hc with h1 | ⟨h2, _⟩
      · subst h1; decide
      · rcases List.mem_map.mp h2 with ⟨d, _, hd⟩
        rw [← hd]; exact jsCharToLower_idem d
    have hws : ∀ c ∈ wsCollapse (s.data.map jsCharToLower) false,
        isJsSpace c = false := by
      intro c hc
      rcases wsCollapse_mem _ _ hc with h1 | ⟨_, h2⟩
      · subst h1; decide
      · exact h2
    rw [map_id_of_mem _ hmem, wsCollapse_id _ _ hws]
    rfl
  · rfl

/-! ## Claim C1: bounded include recursion -/

/-- Claim C1: recursive include preprocessing terminates for every source
and starting depth — once the depth exceeds the fixed maximum of 10 the
branch content is returned as-is with no further expansion — and on the
cyclic include graph `a` ↔ `b` the expansion stops with the unexpanded
final-depth include token in the output. -/
theorem preprocessIncludes_depth_bound :
    (∀ (cfg : Config) (fs : Fs) (t : String) (d : Nat), 10 < d →
        preprocessIncludes cfg fs t d = t) ∧
    preprocessIncludes demoCfg cyclicFs "\x7b% include 'a' %\x7d" 0 =
      "\x7b% include 'b' %\x7d" ∧
    jsIncludes (preprocessIncludes demoCfg cyclicFs "\x7b% include 'a' %\x7d" 0)
      "\x7b% include" = true := by
  refine ⟨?_, by rfl, by rfl⟩
  intro cfg fs t d hd
  rw [preprocessIncludes_unfold, if_pos hd]

/-- Witness for C1: at depth 11 the guard fires and the content comes back
untouched. -/
theorem preprocessIncludes_depth_bound_witness :
    10 < 11 ∧
    preprocessIncludes demoCfg emptyFs "\x7b% include 'a' %\x7d" 11 =
      "\x7b% include 'a' %\x7d" :=
  ⟨by decide,
   preprocessIncludes_depth_bound.1 demoCfg emptyFs "\x7b% include 'a' %\x7d" 11
     (by decide)⟩

/-! ## Claim C2: include resolution order -/

/-- Counterexample to C2 as stated: for `w` the snippet directory exists but
holds no snippet file, a matching `w.webtemplate.source.html` exists in
template storage, yet resolution yields the not-found marker — template
storage is only consulted when the snippet directory is absent; and for `n`
the first listed bare `.html` file wins although a language-qualified
`.contentsnippet.value.html` is present. -/
theorem processInclude_resolution_cex :
    processInclude demoCfg shadowFs "w" 0 = "<!-- Include not found: w -->" ∧
    shadowFs.pathExists "pp/templates/w" = true ∧
    (shadowFs.readdir "pp/templates/w").find?
      (fun f => jsEndsWith f ".webtemplate.source.html") =
      some "w.webtemplate.source.html" ∧
    shadowFs.readFile "pp/templates/w/w.webtemplate.source.html" = "TPL" ∧
    (∀ f ∈ shadowFs.readdir "pp/snippets/w", jsEndsWith f ".html" = false) ∧
    processInclude demoCfg shadowFs "n" 0 = "BARE" ∧
    "n.en-US.contentsnippet.value.html" ∈ shadowFs.readdir "pp/snippets/n" ∧
    endsWithLangQualified "n.en-US.contentsnippet.value.html"
      ".contentsnippet.value.html" = true ∧
    shadowFs.readFile "pp/snippets/n/n.en-US.contentsnippet.value.html" = "LANG" :=
  ⟨by rfl, by rfl, by rfl, by rfl, by decide, by rfl, by decide, by rfl, by rfl⟩

/-- Case analysis of `processInclude` shared by the resolution-order and
not-found-marker theorems. -/
theorem processInclude_branches (cfg : Config) (fs : Fs) (name : String)
    (d : Nat) :
    (fs.pathExists (pathJoin (pathJoin cfg.powerPagesPath cfg.snippetsPath)
        (normalizeLogicalName name)) = true →
      ((fs.readdir (pathJoin (pathJoin cfg.powerPagesPath cfg.snippetsPath)
          (normalizeLogicalName name))).find? (fun f => jsEndsWith f ".html") = none →
        processInclude cfg fs name d = "<!-- Include not found: " ++ name ++ " -->") ∧
      (∀ f, (fs.readdir (pathJoin (pathJoin cfg.powerPagesPath cfg.snippetsPath)
          (normalizeLogicalName name))).find? (fun g => jsEndsWith g ".html") = some f →
        fs.readFile (pathJoin (pathJoin (pathJoin cfg.powerPagesPath
            cfg.snippetsPath) (normalizeLogicalName name)) f) = "" →
        processInclude cfg fs name d = "<!-- Include not found: " ++ name ++ " -->") ∧
      (∀ f, (fs.readdir (pathJoin (pathJoin cfg.powerPagesPath cfg.snippetsPath)
          (normalizeLogicalName name))).find? (fun g => jsEndsWith g ".html") = some f →
        ∀ c, c = fs.readFile (pathJoin (pathJoin (pathJoin cfg.powerPagesPath
            cfg.snippetsPath) (normalizeLogicalName name)) f) → c ≠ "" →
        processInclude cfg fs name d =
          if shouldSkipLiquidProcessing cfg name c then c
          else preprocessIncludes cfg fs c d)) ∧
    (fs.pathExists (pathJoin (pathJoin cfg.powerPagesPath cfg.snippetsPath)
        (normalizeLogicalName name)) = false →
      (fs.pathExists (pathJoin (pathJoin cfg.powerPagesPath cfg.templatesPath)
          (normalizeLogicalName name)) = false →
        processInclude cfg fs name d = "<!-- Include not found: " ++ name ++ " -->") ∧
      (fs.pathExists (pathJoin (pathJoin cfg.powerPagesPath cfg.templatesPath)
          (normalizeLogicalName name)) = true →
        ((fs.readdir (pathJoin (pathJoin cfg.powerPagesPath cfg.templatesPath)
            (normalizeLogicalName name))).find?
            (fun f => jsEndsWith f ".webtemplate.source.html") = none →
          processInclude cfg fs name d = "<!-- Include not found: " ++ name ++ " -->") ∧
        (∀ f, (fs.readdir (pathJoin (pathJoin cfg.powerPagesPath cfg.templatesPath)
            (normalizeLogicalName name))).find?
            (fun g => jsEndsWith g ".webtemplate.source.html") = some f →
          fs.readFile (pathJoin (pathJoin (pathJoin cfg.powerPagesPath
              cfg.templatesPath) (normalizeLogicalName name)) f) = "" →
          processInclude cfg fs name d =
            "<!-- Include not found: " ++ name ++ " -->") ∧
        (∀ f, (fs.readdir (pathJoin (pathJoin cfg.powerPagesPath cfg.templatesPath)
            (normalizeLogicalName name))).find?
            (fun g => jsEndsWith g ".webtemplate.source.html") = some f →
          ∀ c, c = fs.readFile (pathJoin (pathJoin (pathJoin cfg.powerPagesPath
              cfg.templatesPath) (normalizeLogicalName name)) f) → c ≠ "" →
          processInclude cfg fs name d =
            if shouldSkipLiquidProcessing cfg name c then c
            else preprocessIncludes cfg fs c d))) := by
  constructor
  · intro hsp
    refine ⟨?_, ?_, ?_⟩
    · intro hfind
      simp [processInclude, processIncludeWith, hsp, hfind]
    · intro f hfind hc
      simp [processInclude, processIncludeWith, hsp, hfind, hc]
    · intro f hfind c hc hne
      subst hc
      simp only [processInclude, processIncludeWith, hsp, hfind, if_true]
      rw [if_pos hne]
  · intro hsp
    constructor
    · intro htp
      simp [processInclude, processIncludeWith, hsp, htp]
    · intro htp
      refine ⟨?_, ?_, ?_⟩
      · intro hfind
        simp [processInclude, processIncludeWith, hsp, htp, hfind]
      · intro f hfind hc
        simp [processInclude, processIncludeWith, hsp, htp, hfind, hc]
      · intro f hfind c hc hne
        subst hc
        simp only [processInclude, processIncludeWith, hsp, htp, hfind, if_false,
          if_true, Bool.false_eq_true]
        rw [if_pos hne]

/-- Amended C2: include resolution first checks whether the snippet
directory for the normalized name exists; if so it uses the first `*.html`
file there (with no language preference) and never consults template
storage; only when the snippet directory is absent does it look for a
`*.webtemplate.source.html` file in template storage; a chosen file with
non-empty content wins (returned as-is for JavaScript files, else
recursively preprocessed); otherwise — no directory, no file, or a found
file whose content is empty — the result is the include-not-found
marker. -/
theorem processInclude_resolution_order (cfg : Config) (fs : Fs) (name : String)
    (d : Nat) :
    (fs.pathExists (pathJoin (pathJoin cfg.powerPagesPath cfg.snippetsPath)
        (normalizeLogicalName name)) = true →
      ((fs.readdir (pathJoin (pathJoin cfg.powerPagesPath cfg.snippetsPath)
          (normalizeLogicalName name))).find? (fun f => jsEndsWith f ".html") = none →
        processInclude cfg fs name d = "<!-- Include not found: " ++ name ++ " -->") ∧
      (∀ f, (fs.readdir (pathJoin (pathJoin cfg.powerPagesPath cfg.snippetsPath)
          (normalizeLogicalName name))).find? (fun g => jsEndsWith g ".html") = some f →
        fs.readFile (pathJoin (pathJoin (pathJoin cfg.powerPagesPath
            cfg.snippetsPath) (normalizeLogicalName name)) f) = "" →
        processInclude cfg fs name d = "<!-- Include not found: " ++ name ++ " -->") ∧
      (∀ f, (fs.readdir (pathJoin (pathJoin cfg.powerPagesPath cfg.snippetsPath)
          (normalizeLogicalName name))).find? (fun g => jsEndsWith g ".html") = some f →
        ∀ c, c = fs.readFile (pathJoin (pathJoin (pathJoin cfg.powerPagesPath
            cfg.snippetsPath) (normalizeLogicalName name)) f) → c ≠ "" →
        processInclude cfg fs name d =
          if shouldSkipLiquidProcessing cfg name c then c
          else preprocessIncludes cfg fs c d)) ∧
    (fs.pathExists (pathJoin (pathJoin cfg.powerPagesPath cfg.snippetsPath)
        (normalizeLogicalName name)) = false →
      (fs.pathExists (pathJoin (pathJoin cfg.powerPagesPath cfg.templatesPath)
          (normalizeLogicalName name)) = false →
        processInclude cfg fs name d = "<!-- Include not found: " ++ name ++ " -->") ∧
      (fs.pathExists (pathJoin (pathJoin cfg.powerPagesPath cfg.templatesPath)
          (normalizeLogicalName name)) = true →
        ((fs.readdir (pathJoin (pathJoin cfg.powerPagesPath cfg.templatesPath)
            (normalizeLogicalName name))).find?
            (fun f => jsEndsWith f ".webtemplate.source.html") = none →
          processInclude cfg fs name d = "<!-- Include not found: " ++ name ++ " -->") ∧
        (∀ f, (fs.readdir (pathJoin (pathJoin cfg.powerPagesPath cfg.templatesPath)
            (normalizeLogicalName name))).find?
            (fun g => jsEndsWith g ".webtemplate.source.html") = some f →
          fs.readFile (pathJoin (pathJoin (pathJoin cfg.powerPagesPath
              cfg.templatesPath) (normalizeLogicalName name)) f) = "" →
          processInclude cfg fs name d =
            "<!-- Include not found: " ++ name ++ " -->") ∧
        (∀ f, (fs.readdir (pathJoin (pathJoin cfg.powerPagesPath cfg.templatesPath)
            (normalizeLogicalName name))).find?
            (fun g => jsEndsWith g ".webtemplate.source.html") = some f →
          ∀ c, c = fs.readFile (pathJoin (pathJoin (pathJoin cfg.powerPagesPath
              cfg.templatesPath) (normalizeLogicalName name)) f) → c ≠ "" →
          processInclude cfg fs name d =
            if shouldSkipLiquidProcessing cfg name c then c
            else preprocessIncludes cfg fs c d))) :=
  processInclude_branches cfg fs name d

/-- Witness for the amended C2: a template-storage hit resolves when the
snippet directory is absent. -/
theorem processInclude_resolution_order_witness :
    cyclicFs.pathExists "pp/snippets/a" = false ∧
    cyclicFs.pathExists "pp/templates/a" = true ∧
    processInclude demoCfg cyclicFs "a" 11 =
      (if shouldSkipLiquidProcessing demoCfg "a" "\x7b% include 'b' %\x7d" then
        "\x7b% include 'b' %\x7d"
       else preprocessIncludes demoCfg cyclicFs "\x7b% include 'b' %\x7d" 11) :=
  ⟨by rfl, by rfl,
   (((processInclude_resolution_order demoCfg cyclicFs "a" 11).2 (by rfl)).2
     (by rfl)).2.2 "a.webtemplate.source.html" (by rfl) "\x7b% include 'b' %\x7d"
     (by rfl) (by decide)⟩

/-! ## Claim C3: the include-not-found marker -/

/-- Claim C3: when neither a snippet file nor a template file resolves the
include name, the output is exactly the literal marker with the unnormalized
name substituted. -/
theorem processInclude_notfound_marker (cfg : Config) (fs : Fs) (name : String)
    (d : Nat)
    (hs : fs.pathExists (pathJoin (pathJoin cfg.powerPagesPath cfg.snippetsPath)
        (normalizeLogicalName name)) = true →
      (fs.readdir (pathJoin (pathJoin cfg.powerPagesPath cfg.snippetsPath)
        (normalizeLogicalName name))).find? (fun f => jsEndsWith f ".html") = none)
    (ht : fs.pathExists (pathJoin (pathJoin cfg.powerPagesPath cfg.templatesPath)
        (normalizeLogicalName name)) = true →
      (fs.readdir (pathJoin (pathJoin cfg.powerPagesPath cfg.templatesPath)
        (normalizeLogicalName name))).find?
        (fun f => jsEndsWith f ".webtemplate.source.html") = none) :
    processInclude cfg fs name d = "<!-- Include not found: " ++ name ++ " -->" := by
  by_cases hsp : fs.pathExists (pathJoin (pathJoin cfg.powerPagesPath
      cfg.snippetsPath) (normalizeLogicalName name)) = true
  · exact ((processInclude_branches cfg fs name d).1 hsp).1 (hs hsp)
  · have hsp' : fs.pathExists (pathJoin (pathJoin cfg.powerPagesPath
        cfg.snippetsPath) (normalizeLogicalName name)) = false := by
      revert hsp
      cases fs.pathExists (pathJoin (pathJoin cfg.powerPagesPath cfg.snippetsPath)
        (normalizeLogicalName name)) <;> simp
    by_cases htp : fs.pathExists (pathJoin (pathJoin cfg.powerPagesPath
        cfg.templatesPath) (normalizeLogicalName name)) = true
    · exact (((processInclude_branches cfg fs name d).2 hsp').2 htp).1 (ht htp)
    · have htp' : fs.pathExists (pathJoin (pathJoin cfg.powerPagesPath
          cfg.templatesPath) (normalizeLogicalName name)) = false := by
        revert htp
        cases fs.pathExists (pathJoin (pathJoin cfg.powerPagesPath cfg.templatesPath)
          (normalizeLogicalName name)) <;> simp
      exact ((processInclude_branches cfg fs name d).2 hsp').1 htp'

/-- Witness for C3: the missing name "Ghost Widget" renders as its exact
marker. -/
theorem processInclude_notfound_marker_witness :
    processInclude demoCfg emptyFs "Ghost Widget" 0 =
      "<!-- Include not found: Ghost Widget -->" := by
  have h := processInclude_notfound_marker demoCfg emptyFs "Ghost Widget" 0
    (by intro hx; simp [emptyFs] at hx) (by intro hx; simp [emptyFs] at hx)
  exact h

/-! ## Claim C10: the snippet-not-found marker is distinct -/

/-- Claim C10: an unresolved snippet-object reference substitutes the
distinct marker `<!-- Snippet not found: name -->` — both in the
`{{ Snippets.Name }}` loader and in the `snippets["Name"]` renderer — and
for no name does that marker coincide with the include-not-found marker. -/
theorem snippet_notfound_marker :
    (∀ (cfg : Config) (fs : Fs) (name : String) (d : Nat),
      (fs.pathExists (pathJoin (pathJoin cfg.powerPagesPath cfg.snippetsPath)
          (normalizeLogicalName name)) = true →
        (fs.readdir (pathJoin (pathJoin cfg.powerPagesPath cfg.snippetsPath)
            (normalizeLogicalName name))).find?
            (fun f => jsEndsWith f ".contentsnippet.value.html") = none ∧
        (fs.readdir (pathJoin (pathJoin cfg.powerPagesPath cfg.snippetsPath)
            (normalizeLogicalName name))).find?
            (fun f => jsEndsWith f ".contentsnippet.html") = none) →
      loadSnippetContent cfg fs name d = "<!-- Snippet not found: " ++ name ++ " -->") ∧
    (∀ (engine : Engine) (cfg : Config) (fs : Fs) (name : String),
      getSnippet cfg fs name = none →
      renderSnippet engine cfg fs name =
        .ok ("<!-- Snippet not found: " ++ name ++ " -->")) ∧
    (∀ name : String,
      ("<!-- Snippet not found: " ++ name ++ " -->" : String) ≠
        "<!-- Include not found: " ++ name ++ " -->") := by
  refine ⟨?_, ?_, ?_⟩
  · intro cfg fs name d hfind
    by_cases hsp : fs.pathExists (pathJoin (pathJoin cfg.powerPagesPath
        cfg.snippetsPath) (normalizeLogicalName name)) = true
    · rcases hfind hsp with ⟨h1, h2⟩
      simp only [loadSnippetContent, loadSnippetContentWith, hsp, h1, h2, if_true,
        Option.orElse_none, Option.none_orElse]
    · simp only [loadSnippetContent, loadSnippetContentWith]
      rw [if_neg hsp]
  · intro engine cfg fs name hget
    simp only [renderSnippet, hget]
  · intro name h
    have hd := congrArg String.data h
    rw [String.data_append, String.data_append, String.data_append,
      String.data_append, List.append_assoc, List.append_assoc] at hd
    have hlen : ("<!-- Snippet not found: ".data).length =
        ("<!-- Include not found: ".data).length := by decide
    have hpre := (List.append_inj hd hlen).1
    exact absurd hpre (by decide)

/-- Witness for C10: the missing snippet "Ghost" yields the snippet marker
in both code paths. -/
theorem snippet_notfound_marker_witness :
    loadSnippetContent demoCfg emptyFs "Ghost" 0 =
      "<!-- Snippet not found: Ghost -->" ∧
    renderSnippet okEngine demoCfg emptyFs "Ghost" =
      .ok "<!-- Snippet not found: Ghost -->" :=
  ⟨snippet_notfound_marker.1 demoCfg emptyFs "Ghost" 0
     (by intro hx; simp [emptyFs] at hx),
   snippet_notfound_marker.2.1 okEngine demoCfg emptyFs "Ghost" (by rfl)⟩

/-! ## Claim C4: the classifier gates the expression engine -/

/-- Counterexample to C4 as stated: a JavaScript-classified source carrying
an include tag is returned by `render` verbatim and unexpanded, so the
classifier is not re-applied to an expanded result and the expanded text —
itself JavaScript-classified — is not what `render` returns. -/
theorem render_classifier_cex :
    isJavaScriptContent demoCfg jsWithInclude = true ∧
    preprocessIncludes demoCfg jsTplFs jsWithInclude 0 = "var y = 2\nvar x = 1" ∧
    isJavaScriptContent demoCfg (preprocessIncludes demoCfg jsTplFs jsWithInclude 0) =
      true ∧
    render okEngine demoCfg jsTplFs jsWithInclude = .ok jsWithInclude ∧
    jsWithInclude ≠ "var y = 2\nvar x = 1" :=
  ⟨by rfl, by rfl, by rfl, by rfl, by decide⟩

/-- Amended C4: the classifier is applied to the original source, and when
it fires `render` returns the original text verbatim without expanding
includes; otherwise includes are expanded and the classifier is re-applied
to the expanded result; when that fires, `render` returns the expanded text
verbatim — in both cases the expression engine is never executed. -/
theorem render_classifier_gate (engine : Engine) (cfg : Config) (fs : Fs)
    (t : String) :
    (isJavaScriptContent cfg t = true → render engine cfg fs t = .ok t) ∧
    (isJavaScriptContent cfg t = false →
      isJavaScriptContent cfg (preprocessIncludes cfg fs t 0) = true →
      render engine cfg fs t = .ok (preprocessIncludes cfg fs t 0)) ∧
    (isJavaScriptContent cfg t = false →
      isJavaScriptContent cfg (preprocessIncludes cfg fs t 0) = false →
      render engine cfg fs t = engine (preprocessIncludes cfg fs t 0)) := by
  refine ⟨fun h => by simp [render, h],
          fun h1 h2 => by simp [render, h1, h2],
          fun h1 h2 => by simp [render, h1, h2]⟩

/-- Witness for the amended C4: an innocuous include expands into JavaScript
and is returned verbatim, bypassing the engine. -/
theorem render_classifier_gate_witness :
    isJavaScriptContent demoCfg "\x7b% include 'a' %\x7d" = false ∧
    isJavaScriptContent demoCfg
      (preprocessIncludes demoCfg jsTplFs "\x7b% include 'a' %\x7d" 0) = true ∧
    render okEngine demoCfg jsTplFs "\x7b% include 'a' %\x7d" =
      .ok (preprocessIncludes demoCfg jsTplFs "\x7b% include 'a' %\x7d" 0) :=
  ⟨by rfl, by rfl,
   (render_classifier_gate okEngine demoCfg jsTplFs "\x7b% include 'a' %\x7d").2.1
     (by rfl) (by rfl)⟩

/-! ## Claim C5: render errors are caught at the boundary -/

/-- Claim C5: `TemplateHandler.renderTemplate` never lets an engine error
escape: it always produces a value — a missing template becomes the
template-not-found marker, and an error thrown by `render` (syntax or
runtime) is caught and becomes the template-render-error marker. -/
theorem renderTemplate_never_throws (engine : Engine) (cfg : Config) (fs : Fs)
    (name : String) :
    (∃ s, renderTemplate engine cfg fs name = .ok s) ∧
    (getTemplate cfg fs name = none →
      renderTemplate engine cfg fs name =
        .ok ("<!-- Template not found: " ++ name ++ " -->")) ∧
    (∀ content, getTemplate cfg fs name = some content →
      ∀ e, render engine cfg fs content = .error e →
        renderTemplate engine cfg fs name =
          .ok ("<!-- Template render error: " ++ name ++ " -->")) := by
  refine ⟨?_, ?_, ?_⟩
  · rcases hget : getTemplate cfg fs name with _ | c
    · exact ⟨"<!-- Template not found: " ++ name ++ " -->",
        by simp [renderTemplate, hget]⟩
    · rcases hr : render engine cfg fs c with e | r
      · exact ⟨"<!-- Template render error: " ++ name ++ " -->",
          by simp [renderTemplate, hget, hr]⟩
      · exact ⟨r, by simp [renderTemplate, hget, hr]⟩
  · intro hget
    simp [renderTemplate, hget]
  · intro c hget e hr
    simp [renderTemplate, hget, hr]

/-- Witness for C5: a throwing engine on a plain Liquid template yields the
caught marker, not an error. -/
theorem renderTemplate_never_throws_witness :
    getTemplate demoCfg jsTplFs "t" = some "hello \x7b\x7b name \x7d\x7d" ∧
    render failEngine demoCfg jsTplFs "hello \x7b\x7b name \x7d\x7d" =
      .error ⟨"parse error"⟩ ∧
    renderTemplate failEngine demoCfg jsTplFs "t" =
      .ok "<!-- Template render error: t -->" :=
  ⟨by rfl, by rfl,
   (renderTemplate_never_throws failEngine demoCfg jsTplFs "t").2.2
     "hello \x7b\x7b name \x7d\x7d" (by rfl) ⟨"parse error"⟩ (by rfl)⟩

/-! ## Claim C7: language fallback in page content resolution -/

/-- Claim C7: page content resolution is total and never throws — when the
content directory is missing it returns `none`; when no content file for
the requested language exists, it either returns the first content file of
any other language (with `hasLanguageFile := false`) or `none` when no
content file exists at all. -/
theorem getPageContent_language_fallback (cfg : Config) (fs : Fs)
    (dir lang : String) :
    (fs.pathExists (pathJoin (pathJoin (pathJoin cfg.powerPagesPath cfg.pagesPath)
        dir) "content-pages") = false →
      getPageContent cfg fs dir lang = none) ∧
    (fs.pathExists (pathJoin (pathJoin (pathJoin cfg.powerPagesPath cfg.pagesPath)
        dir) "content-pages") = true →
      (fs.readdir (pathJoin (pathJoin (pathJoin cfg.powerPagesPath cfg.pagesPath)
          dir) "content-pages")).find?
          (fun f => jsIncludes f (jsReplaceFirst lang "-" "-") &&
            jsEndsWith f ".webpage.copy.html") = none →
      ((∃ g, (fs.readdir (pathJoin (pathJoin (pathJoin cfg.powerPagesPath
            cfg.pagesPath) dir) "content-pages")).find?
            (fun f => jsEndsWith f ".webpage.copy.html") = some g ∧
          ∃ pc : PageContent, getPageContent cfg fs dir lang = some pc ∧
            pc.content = fs.readFile (pathJoin (pathJoin (pathJoin
              (pathJoin cfg.powerPagesPath cfg.pagesPath) dir) "content-pages") g) ∧
            pc.hasLanguageFile = false) ∨
       ((fs.readdir (pathJoin (pathJoin (pathJoin cfg.powerPagesPath cfg.pagesPath)
            dir) "content-pages")).find?
            (fun f => jsEndsWith f ".webpage.copy.html") = none ∧
        getPageContent cfg fs dir lang = none))) := by
  constructor
  · intro hex
    simp [getPageContent, hex]
  · intro hex hlang
    rcases hfb : (fs.readdir (pathJoin (pathJoin (pathJoin cfg.powerPagesPath
        cfg.pagesPath) dir) "content-pages")).find?
        (fun f => jsEndsWith f ".webpage.copy.html") with _ | g
    · right
      exact ⟨rfl, by simp [getPageContent, hex, hlang, hfb]⟩
    · left
      refine ⟨g, rfl, ?_⟩
      simp only [getPageContent, hex, hlang, hfb, if_true]
      exact ⟨_, rfl, rfl, rfl⟩

/-- Witness for C7: requesting `he-IL` for a page holding only an `en-US`
content file falls back to that file. -/
theorem getPageContent_language_fallback_witness :
    pagesFs.pathExists "pp/pages/home/content-pages" = true ∧
    (pagesFs.readdir "pp/pages/home/content-pages").find?
      (fun f => jsIncludes f (jsReplaceFirst "he-IL" "-" "-") &&
        jsEndsWith f ".webpage.copy.html") = none ∧
    ((∃ g, (pagesFs.readdir (pathJoin (pathJoin (pathJoin demoCfg.powerPagesPath
          demoCfg.pagesPath) "home") "content-pages")).find?
          (fun f => jsEndsWith f ".webpage.copy.html") = some g ∧
        ∃ pc : PageContent, getPageContent demoCfg pagesFs "home" "he-IL" = some pc ∧
          pc.content = pagesFs.readFile (pathJoin (pathJoin (pathJoin
            (pathJoin demoCfg.powerPagesPath demoCfg.pagesPath) "home")
            "content-pages") g) ∧
          pc.hasLanguageFile = false) ∨
     ((pagesFs.readdir (pathJoin (pathJoin (pathJoin demoCfg.powerPagesPath
          demoCfg.pagesPath) "home") "content-pages")).find?
          (fun f => jsEndsWith f ".webpage.copy.html") = none ∧
      getPageContent demoCfg pagesFs "home" "he-IL" = none)) :=
  ⟨by rfl, by rfl,
   (getPageContent_language_fallback demoCfg pagesFs "home" "he-IL").2
     (by rfl) (by rfl)⟩

/-! ## Claim C8: priority selection of mock rules -/

/-- `mockEarlier` is total. -/
theorem mockEarlier_total (a b : MockRule) :
    mockEarlier a b = true ∨ mockEarlier b a = true := by
  simp only [mockEarlier, Bool.or_eq_true, Bool.and_eq_true, decide_eq_true_eq]
  omega

/-- `mockEarlier` is transitive. -/
theorem mockEarlier_trans {a b c : MockRule} (h1 : mockEarlier a b = true)
    (h2 : mockEarlier b c = true) : mockEarlier a c = true := by
  simp only [mockEarlier, Bool.or_eq_true, Bool.and_eq_true,
    decide_eq_true_eq] at h1 h2 ⊢
  omega

/-- Members of an insertion are the inserted element or old members. -/
theorem insertSorted_mem {x a : MockRule} :
    ∀ l, a ∈ insertSorted x l → a = x ∨ a ∈ l := by
  intro l
  induction l with
  | nil =>
      intro h
      simp [insertSorted] at h
      exact Or.inl h
  | cons y ys ih =>
      intro h
      by_cases hc : mockEarlier x y = true
      · simp only [insertSorted, hc, if_true] at h
        rcases List.mem_cons.mp h with h1 | h1
        · exact Or.inl h1
        · exact Or.inr h1
      · simp only [insertSorted] at h
        rw [if_neg hc] at h
        rcases List.mem_cons.mp h with h1 | h1
        · exact Or.inr (List.mem_cons.mpr (Or.inl h1))
        · rcases ih h1 with h2 | h2
          · exact Or.inl h2
          · exact Or.inr (List.mem_cons_of_mem _ h2)

/-- Insertion preserves sortedness by `mockEarlier`. -/
theorem insertSorted_pairwise {x : MockRule} :
    ∀ l, List.Pairwise (fun a b => mockEarlier a b = true) l →
      List.Pairwise (fun a b => mockEarlier a b = true) (insertSorted x l) := by
  intro l
  induction l with
  | nil => intro _; simp [insertSorted]
  | cons y ys ih =>
      intro hp
      rcases List.pairwise_cons.mp hp with ⟨hy, hys⟩
      by_cases hc : mockEarlier x y = true
      · simp only [insertSorted, hc, if_true]
        apply List.pairwise_cons.mpr
        refine ⟨?_, hp⟩
        intro b hb
        rcases List.mem_cons.mp hb with h1 | h1
        · rw [h1]; exact hc
        · exact mockEarlier_trans hc (hy b h1)
      · have hyx : mockEarlier y x = true := (mockEarlier_total x y).resolve_left hc
        simp only [insertSorted]
        rw [if_neg hc]
        apply List.pairwise_cons.mpr
        refine ⟨?_, ih hys⟩
        intro b hb
        rcases insertSorted_mem _ hb with h1 | h1
        · rw [h1]; exact hyx
        · exact hy b h1

/-- The comparator sort always produces a `mockEarlier`-sorted list. -/
theorem sortMocks_pairwise (l : List MockRule) :
    List.Pairwise (fun a b => mockEarlier a b = true) (sortMocks l) := by
  induction l with
  | nil => simp [sortMocks]
  | cons x xs ih => exact insertSorted_pairwise _ ih

/-- Insertion is a permutation of consing. -/
theorem insertSorted_perm (x : MockRule) :
    ∀ l, List.Perm (insertSorted x l) (x :: l) := by
  intro l
  induction l with
  | nil => simp [insertSorted]
  | cons y ys ih =>
      by_cases hc : mockEarlier x y = true
      · simp [insertSorted, hc]
      · simp only [insertSorted]
        rw [if_neg hc]
        exact (List.Perm.cons y ih).trans (List.Perm.swap x y ys)

/-- Sorting permutes. -/
theorem sortMocks_perm (l : List MockRule) : List.Perm (sortMocks l) l := by
  induction l with
  | nil => simp [sortMocks]
  | cons x xs ih =>
      exact (insertSorted_perm x (sortMocks xs)).trans (List.Perm.cons x ih)

/-- Folding `saveMock` over registrations permutes the registered rules. -/
theorem registerAll_go_perm :
    ∀ (l acc : List MockRule), List.Perm (List.foldl saveMock acc l) (acc ++ l) := by
  intro l
  induction l with
  | nil => intro acc; simp
  | cons m ms ih =>
      intro acc
      have h2 : List.Perm (saveMock acc m) (acc ++ [m]) := sortMocks_perm _
      have h3 : (acc ++ [m]) ++ ms = acc ++ m :: ms := by simp
      exact (ih _).trans (h3 ▸ h2.append_right ms)

/-- The persisted store reached by any sequence of `saveMock`s is sorted. -/
theorem registerAll_pairwise (l : List MockRule) :
    List.Pairwise (fun a b => mockEarlier a b = true) (registerAll l) := by
  have key : ∀ (ms acc : List MockRule),
      List.Pairwise (fun a b => mockEarlier a b = true) acc →
      List.Pairwise (fun a b => mockEarlier a b = true)
        (List.foldl saveMock acc ms) := by
    intro ms
    induction ms with
    | nil => intro acc h; exact h
    | cons m mms ih => intro acc _; exact ih _ (sortMocks_pairwise _)
  exact key l [] List.Pairwise.nil

/-- In a `Pairwise R` list, the first element satisfying `p` is related by
`R` to (or equal to) every satisfying member. -/
theorem find_first_pairwise {R : MockRule → MockRule → Prop} {p : MockRule → Bool} :
    ∀ {l : List MockRule}, l.Pairwise R → ∀ {a}, a ∈ l → p a = true →
      ∃ b, l.find? p = some b ∧ (b = a ∨ R b a) := by
  intro l
  induction l with
  | nil =>
      intro _ a ha
      simp at ha
  | cons y ys ih =>
      intro hp a ha hpa
      rcases List.pairwise_cons.mp hp with ⟨hy, hys⟩
      by_cases hpy : p y = true
      · refine ⟨y, ?_, ?_⟩
        · rw [List.find?_cons_of_pos _ hpy]
        · rcases List.mem_cons.mp ha with h1 | h1
          · exact Or.inl h1.symm
          · exact Or.inr (hy a h1)
      · have ha' : a ∈ ys := by
          rcases List.mem_cons.mp ha with h1 | h1
          · rw [h1] at hpa; exact absurd hpa hpy
          · exact h1
        rcases ih hys ha' hpa with ⟨b, hb1, hb2⟩
        refine ⟨b, ?_, hb2⟩
        rw [List.find?_cons_of_neg _ hpy]
        exact hb1

/-- Claim C8: after any registration order, the persisted store is sorted by
priority descending then creation date descending, and between two enabled
structurally-matching rules the selected first match has at least the higher
priority — in particular the lower-priority rule is never the one
selected. -/
theorem mock_priority_wins (l : List MockRule) (reqMethod reqPath : String)
    (reqQuery : List (String × String)) (m1 m2 : MockRule)
    (h1 : m1 ∈ l) (h2 : m2 ∈ l)
    (he1 : m1.enabled = true) (he2 : m2.enabled = true)
    (hm1 : matchesRequest m1 reqMethod reqPath reqQuery = true)
    (hm2 : matchesRequest m2 reqMethod reqPath reqQuery = true)
    (hp : m2.priority < m1.priority) :
    List.Pairwise (fun a b => mockEarlier a b = true) (registerAll l) ∧
    ∃ m, findMatchingMock (loadMocks (registerAll l)) reqMethod reqPath reqQuery =
        some m ∧
      m1.priority ≤ m.priority ∧ m.enabled = true ∧
      matchesRequest m reqMethod reqPath reqQuery = true ∧
      m ≠ m2 := by
  refine ⟨registerAll_pairwise l, ?_⟩
  have hperm : List.Perm (registerAll l) l := by
    have := registerAll_go_perm l []
    simpa [registerAll] using this
  have hmem1 : m1 ∈ registerAll l := hperm.mem_iff.mpr h1
  have hact1 : m1 ∈ loadMocks (registerAll l) :=
    List.mem_filter.mpr ⟨hmem1, he1⟩
  have hpair := (registerAll_pairwise l).filter (fun m => m.enabled)
  rcases @find_first_pairwise _
      (fun m => matchesRequest m reqMethod reqPath reqQuery) _ hpair _ hact1 hm1
    with ⟨b, hb1, hb2⟩
  have hble : m1.priority ≤ b.priority := by
    rcases hb2 with h | h
    · rw [h]
    · simp only [mockEarlier, Bool.or_eq_true, Bool.and_eq_true,
        decide_eq_true_eq] at h
      omega
  have hpb : matchesRequest b reqMethod reqPath reqQuery = true := by
    have hx := List.find?_some hb1
    simpa using hx
  have hben : b.enabled = true := by
    have hx := List.mem_of_find?_eq_some hb1
    exact (List.mem_filter.mp hx).2
  refine ⟨b, hb1, hble, hben, hpb, ?_⟩
  intro hbm
  rw [hbm] at hble
  omega

/-- Witness for C8: registering the low-priority rule first, the
high-priority rule is still selected. -/
theorem mock_priority_wins_witness :
    highMock ∈ [lowMock, highMock] ∧
    matchesRequest highMock "get" "/api/x" [] = true ∧
    matchesRequest lowMock "get" "/api/x" [] = true ∧
    lowMock.priority < highMock.priority ∧
    (∃ m, findMatchingMock (loadMocks (registerAll [lowMock, highMock]))
        "get" "/api/x" [] = some m ∧
      highMock.priority ≤ m.priority ∧ m.enabled = true ∧
      matchesRequest m "get" "/api/x" [] = true ∧
      m ≠ lowMock) :=
  ⟨by decide, by rfl, by rfl, by decide,
   (mock_priority_wins [lowMock, highMock] "get" "/api/x" [] highMock lowMock
     (by decide) (by decide) (by rfl) (by rfl) (by rfl) (by rfl) (by decide)).2⟩

/-! ## Claim C9: query-parameter matching -/

/-- A successful query match requires every constraint key to be present
with a truthy value. -/
theorem mqp_present :
    ∀ (mockQ reqQ : List (String × String)),
      matchesQueryParams mockQ reqQ = true →
      ∀ k v, (k, v) ∈ mockQ → ∃ rv, reqQ.lookup k = some rv ∧ rv ≠ "" := by
  intro mockQ
  induction mockQ with
  | nil =>
      intro reqQ _ k v hkv
      simp at hkv
  | cons kv rest ih =>
      intro reqQ hm k v hkv
      obtain ⟨key, mockValue⟩ := kv
      rcases hlk : reqQ.lookup key with _ | rv
      · simp only [matchesQueryParams, hlk] at hm
        exact absurd hm (by simp)
      · simp only [matchesQueryParams, hlk] at hm
        by_cases hrv : rv = ""
        · rw [if_pos hrv] at hm
          exact absurd hm (by simp)
        · rw [if_neg hrv] at hm
          have hrec : matchesQueryParams rest reqQ = true := by
            split at hm
            · exact hm
            · split at hm
              · exact hm
              · exact absurd hm (by simp)
          rcases List.mem_cons.mp hkv with h1 | h1
          · have hk : k = key := congrArg Prod.fst h1
            rw [hk]
            exact ⟨rv, hlk, hrv⟩
          · exact ih reqQ hrec k v h1

/-- A successful query match pins every non-`$select` constraint to exact
equality. -/
theorem mqp_exact :
    ∀ (mockQ reqQ : List (String × String)),
      matchesQueryParams mockQ reqQ = true →
      ∀ k v, (k, v) ∈ mockQ → k ≠ "$select" → reqQ.lookup k = some v := by
  intro mockQ
  induction mockQ with
  | nil =>
      intro reqQ _ k v hkv
      simp at hkv
  | cons kv rest ih =>
      intro reqQ hm k v hkv hksel
      obtain ⟨key, mockValue⟩ := kv
      rcases hlk : reqQ.lookup key with _ | rv
      · simp only [matchesQueryParams, hlk] at hm
        exact absurd hm (by simp)
      · simp only [matchesQueryParams, hlk] at hm
        by_cases hrv : rv = ""
        · rw [if_pos hrv] at hm
          exact absurd hm (by simp)
        · rw [if_neg hrv] at hm
          rcases List.mem_cons.mp hkv with h1 | h1
          · have hk : k = key := congrArg Prod.fst h1
            have hv : v = mockValue := congrArg Prod.snd h1
            rw [hk] at hksel
            have hcond : (decide (key = "$select") &&
                (keyFields.any fun fld => (splitTrim mockValue).contains fld) &&
                keyFields.any fun fld => (splitTrim rv).contains fld) = false := by
              simp [hksel]
            rw [if_neg (by rw [hcond]; exact Bool.false_ne_true)] at hm
            by_cases heq : mockValue = rv
            · rw [hk, hlk, hv, heq]
            · rw [if_neg heq] at hm
              exact absurd hm (by simp)
          · have hrec : matchesQueryParams rest reqQ = true := by
              split at hm
              · exact hm
              · split at hm
                · exact hm
                · exact absurd hm (by simp)
            exact ih reqQ hrec k v h1 hksel

/-- Sufficiency: presence with truthy values, exact equality off `$select`,
and shared `incidentid` membership on `$select`, make the match succeed. -/
theorem mqp_sufficient :
    ∀ (mockQ reqQ : List (String × String)),
      (∀ k v, (k, v) ∈ mockQ →
        ∃ rv, reqQ.lookup k = some rv ∧ rv ≠ "" ∧
          (if k = "$select" then
            "incidentid" ∈ splitTrim v ∧ "incidentid" ∈ splitTrim rv
           else rv = v)) →
      matchesQueryParams mockQ reqQ = true := by
  intro mockQ
  induction mockQ with
  | nil => intro _ _; rfl
  | cons kv rest ih =>
      intro reqQ hall
      obtain ⟨key, mockValue⟩ := kv
      rcases hall key mockValue (List.mem_cons_self _ _) with ⟨rv, hlk, hrv, hcond⟩
      simp only [matchesQueryParams, hlk]
      rw [if_neg hrv]
      have htail : matchesQueryParams rest reqQ = true :=
        ih reqQ (fun k v hkv => hall k v (List.mem_cons_of_mem _ hkv))
      by_cases hsel : key = "$select"
      · rw [if_pos hsel] at hcond
        obtain ⟨hmv, hrvm⟩ := hcond
        have hc : (decide (key = "$select") &&
            (keyFields.any fun fld => (splitTrim mockValue).contains fld) &&
            keyFields.any fun fld => (splitTrim rv).contains fld) = true := by
          have h1 : (keyFields.any fun fld => (splitTrim mockValue).contains fld) =
              true := by
            apply List.any_eq_true.mpr
            exact ⟨"incidentid", by simp [keyFields], by
              simpa using List.elem_iff.mpr hmv⟩
          have h2 : (keyFields.any fun fld => (splitTrim rv).contains fld) = true := by
            apply List.any_eq_true.mpr
            exact ⟨"incidentid", by simp [keyFields], by
              simpa using List.elem_iff.mpr hrvm⟩
          rw [hsel, h1, h2]
          rfl
        rw [if_pos hc]
        exact htail
      · rw [if_neg hsel] at hcond
        by_cases hc : (decide (key = "$select") &&
            (keyFields.any fun fld => (splitTrim mockValue).contains fld) &&
            keyFields.any fun fld => (splitTrim rv).contains fld) = true
        · rw [if_pos hc]
          exact htail
        · rw [if_neg hc, hcond, if_pos rfl]
          exact htail

/-- Claim C9: a rule's query constraints require every key present with a
truthy value; non-`$select` keys must match exactly; and a `$select`
constraint with `incidentid` on both sides matches even when the field
lists differ. -/
theorem matchesQueryParams_semantics (mockQ reqQ : List (String × String)) :
    (matchesQueryParams mockQ reqQ = true →
      ∀ k v, (k, v) ∈ mockQ → ∃ rv, reqQ.lookup k = some rv ∧ rv ≠ "") ∧
    (matchesQueryParams mockQ reqQ = true →
      ∀ k v, (k, v) ∈ mockQ → k ≠ "$select" → reqQ.lookup k = some v) ∧
    ((∀ k v, (k, v) ∈ mockQ →
        ∃ rv, reqQ.lookup k = some rv ∧ rv ≠ "" ∧
          (if k = "$select" then
            "incidentid" ∈ splitTrim v ∧ "incidentid" ∈ splitTrim rv
           else rv = v)) →
      matchesQueryParams mockQ reqQ = true) :=
  ⟨mqp_present mockQ reqQ, mqp_exact mockQ reqQ, mqp_sufficient mockQ reqQ⟩

/-- Witness for C9: a `$select` constraint listing `incidentid,ticketnumber`
matches a request selecting `incidentid,statuscode,createdon`. -/
theorem matchesQueryParams_semantics_witness :
    (∀ k v, (k, v) ∈ ([("$select", "incidentid,ticketnumber")] :
        List (String × String)) →
      ∃ rv, ([("$select", "incidentid,statuscode,createdon")] :
          List (String × String)).lookup k = some rv ∧ rv ≠ "" ∧
        (if k = "$select" then
          "incidentid" ∈ splitTrim v ∧ "incidentid" ∈ splitTrim rv
         else rv = v)) ∧
    matchesQueryParams [("$select", "incidentid,ticketnumber")]
      [("$select", "incidentid,statuscode,createdon")] = true := by
  have hyp : ∀ k v, (k, v) ∈ ([("$select", "incidentid,ticketnumber")] :
      List (String × String)) →
      ∃ rv, ([("$select", "incidentid,statuscode,createdon")] :
          List (String × String)).lookup k = some rv ∧ rv ≠ "" ∧
        (if k = "$select" then
          "incidentid" ∈ splitTrim v ∧ "incidentid" ∈ splitTrim rv
         else rv = v) := by
    intro k v hkv
    simp only [List.mem_singleton] at hkv
    have hk : k = "$select" := congrArg Prod.fst hkv
    have hv : v = "incidentid,ticketnumber" := congrArg Prod.snd hkv
    refine ⟨"incidentid,statuscode,createdon", ?_, by decide, ?_⟩
    · rw [hk]; rfl
    · rw [hk, hv]
      simp only [if_pos rfl]
      exact ⟨by decide, by decide⟩
  exact ⟨hyp,
    (matchesQueryParams_semantics [("$select", "incidentid,ticketnumber")]
      [("$select", "incidentid,statuscode,createdon")]).2.2 hyp⟩

end PPLS

